import Mathlib

/-!
Verification of the survey-reconciliation core of the YYC upzoning
questionnaire voter-guide map (`voter_guide.js` and its file variants).

The JavaScript code is shallowly embedded below.  JS strings are Lean
`String`s; a raw CSV cell is `Option String` (`none` models a JS
`null`/`undefined` cell); JS row objects are insertion-ordered association
lists (`RowObj`), matching JS object semantics for the non-integer string
keys this code creates (assignment updates an existing key in place,
otherwise appends).  Index computations that JS encodes as `-1`/`≥ 0`
(`findIndex`) are modelled with `Int`.  The float comparisons
`x/n >= 0.5` and `x/n >= 0.7` on small integer counts are embedded as the
exact rational comparisons `2*x ≥ n` and `10*x ≥ 7*n`, which coincide with
the IEEE-double comparisons for every count bounded by the number of
columns (resp. rows) of any realizable grid.  Regex character classes are
modelled on their ASCII behaviour (`\s` as ASCII whitespace, `\w` as
`[A-Za-z0-9_]`, case folding as ASCII-style `Char.toLower`).
-/

namespace VoterGuide

/-- JS whitespace (regex `\s`, `String.prototype.trim`), ASCII part. -/
def isWsJS (c : Char) : Bool :=
  c = ' ' || c = '\t' || c = '\n' || c = '\r' || c = '\x0b' || c = '\x0c'

/-- Regex class `\d`. -/
def isDigitC (c : Char) : Bool := '0' ≤ c && c ≤ '9'

/-- Regex word class `\w` = `[A-Za-z0-9_]`, used by the `\b` assertion. -/
def isWordC (c : Char) : Bool :=
  ('a' ≤ c && c ≤ 'z') || ('A' ≤ c && c ≤ 'Z') || isDigitC c || c = '_'

/-- JS line terminators (which the regex `.` does not match). -/
def isLineTermC (c : Char) : Bool :=
  c = '\n' || c = '\r' || c = ' ' || c = ' '

/-- `s.toLowerCase()` (ASCII-style case folding). -/
def lcStr (s : String) : String := String.mk (s.toList.map Char.toLower)

/-- Drop JS whitespace from both ends of a character list. -/
def trimList (l : List Char) : List Char :=
  ((l.dropWhile isWsJS).reverse.dropWhile isWsJS).reverse

/-- `s.trim()`. -/
def jsTrim (s : String) : String := String.mk (trimList s.toList)

/-- The script's `normalize`: `v == null ? '' : String(v).trim()`. -/
def normCell : Option String → String
  | none => ""
  | some s => jsTrim s

/-- Character-list prefix test. -/
def listStartsWith : List Char → List Char → Bool
  | [], _ => true
  | _ :: _, [] => false
  | a :: as, b :: bs => a = b && listStartsWith as bs

/-- Character-list substring test. -/
def listHasSub : List Char → List Char → Bool
  | pat, [] => pat.isEmpty
  | pat, c :: rest => listStartsWith pat (c :: rest) || listHasSub pat rest

/-- Case-insensitive substring test (an unanchored `/literal/i` regex). -/
def containsCI (pat s : String) : Bool :=
  listHasSub (lcStr pat).toList (lcStr s).toList

/-- Case-insensitive prefix test (an anchored `/^literal/i` regex). -/
def startsWithCI (pat s : String) : Bool :=
  listStartsWith (lcStr pat).toList (lcStr s).toList

/-- JS `Array.prototype.findIndex`: index of first hit, `-1` when none. -/
def jsFindIndex (p : α → Bool) (l : List α) : Int :=
  match l.findIdx? p with
  | some i => Int.ofNat i
  | none => -1

/-- The `CHOICE_TOKENS` set of `cleanSurveyFromPapa`. -/
def choiceTokens : List String :=
  ["yes", "no", "undecided", "additional comments", "additional comments:",
   "open-ended response", "open-ended response:", "mayor", "first name",
   "last name", "email address", "ward"]

/-- The regex `/^ward(\s*\d+)?$/i` applied to an already lower-cased string. -/
def wardTokMatch : List Char → Bool
  | 'w' :: 'a' :: 'r' :: 'd' :: rest =>
      rest.isEmpty || (let r := rest.dropWhile isWsJS; !r.isEmpty && r.all isDigitC)
  | _ => false

/-- `isChoiceToken` from the source: lower-cased trimmed cell is in
`CHOICE_TOKENS` or matches `/^ward(\s*\d+)?$/i`; empty is never a token. -/
def isChoiceToken (s : String) : Bool :=
  let t := lcStr (jsTrim s)
  if t = "" then false
  else choiceTokens.contains t || wardTokMatch t.toList

/-- `nonEmpty1`: the non-empty (after trim) cells of the second header row. -/
def nonEmptyCells (header1 : List String) : List String :=
  header1.filter (fun x => jsTrim x ≠ "")

/-- `header1IsChoices`: at least one non-empty cell and at least half of the
non-empty cells are choice tokens (`m/n >= 0.5` embedded as `n ≤ 2*m`). -/
def header1IsChoices (header1 : List String) : Bool :=
  let ne := nonEmptyCells header1
  decide (0 < ne.length) && decide (ne.length ≤ 2 * (ne.filter isChoiceToken).length)

/-- Header-cell test `/i'm a candidate for:/i`. -/
def anchorStartHdr (h : String) : Bool := containsCI "i'm a candidate for:" h

/-- Header-cell test `/candidate name and email address/i`. -/
def anchorEndHdr (h : String) : Bool := containsCI "candidate name and email address" h

/-- Header-cell fallback test `/candidate name/i` and `/email/i` together. -/
def anchorEndFbHdr (h : String) : Bool :=
  containsCI "candidate name" h && containsCI "email" h

/-- `idxStart`: index of the ward-block start anchor in the first header row. -/
def idxStartI (header0 : List String) : Int := jsFindIndex anchorStartHdr header0

/-- `idxEndFallback`: primary end anchor, else the looser fallback anchor. -/
def idxEndFallbackI (header0 : List String) : Int :=
  let e := jsFindIndex anchorEndHdr header0
  if 0 ≤ e then e else jsFindIndex anchorEndFbHdr header0

/-- `wardSlice` as computed in `src/voter_guide.js` (line 64):
`{start: idxStart, end: idxEndFallback}`. -/
def wardSliceMain (header0 : List String) : Option (Nat × Nat) :=
  let s := idxStartI header0
  let e := idxEndFallbackI header0
  if 0 ≤ s ∧ s < e then some (s.toNat, e.toNat) else none

/-- `wardSlice` as computed in the `part_000`/`part_001`/`part_002` variants:
`{start: idxStart+1, end: idxEndFallback}`. -/
def wardSliceVariant (header0 : List String) : Option (Nat × Nat) :=
  let s := idxStartI header0
  let e := idxEndFallbackI header0
  if 0 ≤ s ∧ s < e then some (s.toNat + 1, e.toNat) else none

/-- `h && !/^Unnamed/i.test(h)`: a first-row header survives forward-fill. -/
def keepHeader (h : String) : Bool := h ≠ "" && !startsWithCI "unnamed" h

/-- The forward-fill loop body: `prev` is `ffillHeaders[i-1]` (`""` at `i=0`). -/
def ffillAux : String → List String → List String
  | _, [] => []
  | prev, h :: rest =>
      let cur := if keepHeader h then h else prev
      cur :: ffillAux cur rest

/-- `ffillHeaders`: forward-filled first header row. -/
def ffillHeaders (header0 : List String) : List String := ffillAux "" header0

/-- `skipIdx.has(i)`: `i` lies in the half-open ward slice. -/
def inSlice (slice : Option (Nat × Nat)) (i : Nat) : Bool :=
  match slice with
  | none => false
  | some (s, e) => s ≤ i && i < e

/-- `(groups[k] ??= []).push(i)`: append `i` to the group keyed `k`,
creating the group at the end on first use. -/
def pushGroup : List (String × List Nat) → String → Nat → List (String × List Nat)
  | [], k, i => [(k, [i])]
  | (k', idxs) :: rest, k, i =>
      if k' = k then (k', idxs ++ [i]) :: rest
      else (k', idxs) :: pushGroup rest k i

/-- One column of the grouping pass: skip empty effective headers and
ward-slice columns, else push the index under the trimmed header. -/
def groupStep (slice : Option (Nat × Nat)) (gs : List (String × List Nat))
    (p : Nat × String) : List (String × List Nat) :=
  if p.2 = "" || inSlice slice p.1 then gs else pushGroup gs (jsTrim p.2) p.1

/-- `groups`: group column indices by trimmed forward-filled header,
skipping empty headers and ward-slice columns. -/
def buildGroups (ff : List String) (slice : Option (Nat × Nat)) :
    List (String × List Nat) :=
  ff.enum.foldl (groupStep slice) []

/-- Match `a` then `\s*` then `b` at the head of `s` (all pre-lower-cased).
`\s*` is forced to the maximal run because `b` starts with a non-space. -/
def tokPairAt (a b : List Char) (s : List Char) : Bool :=
  listStartsWith a s && listStartsWith b ((s.drop a.length).dropWhile isWsJS)

/-- Unanchored scan for `a\s*b`. -/
def tokPairSub (a b : List Char) : List Char → Bool
  | [] => tokPairAt a b []
  | c :: rest => tokPairAt a b (c :: rest) || tokPairSub a b rest

/-- The regex `/a\s*b/i` as a whole-string test. -/
def hasTokPairCI (a b h : String) : Bool :=
  tokPairSub (lcStr a).toList (lcStr b).toList (lcStr h).toList

/-- Header test `/first\s*name/i`. -/
def firstNameHdr (h : String) : Bool := hasTokPairCI "first" "name" h

/-- Header test `/last\s*name/i`. -/
def lastNameHdr (h : String) : Bool := hasTokPairCI "last" "name" h

/-- Header test `/^\s*name\s*$/i`. -/
def pureNameHdr (h : String) : Bool :=
  let l := (lcStr h).toList.dropWhile isWsJS
  listStartsWith "name".toList l && (l.drop 4).all isWsJS

/-- Split a character list at JS line terminators (`.` cannot cross them). -/
def splitSegsAux (cur : List Char) : List Char → List (List Char)
  | [] => [cur.reverse]
  | c :: rest =>
      if isLineTermC c then cur.reverse :: splitSegsAux [] rest
      else splitSegsAux (c :: cur) rest

/-- Suffix just after the first occurrence of literal `p`, if any. -/
def dropToAfter (p : List Char) : List Char → Option (List Char)
  | [] => none
  | c :: rest =>
      if listStartsWith p (c :: rest) then some ((c :: rest).drop p.length)
      else dropToAfter p rest

/-- Literals occur in order, with arbitrary gaps, inside one segment. -/
def chainInSeg : List (List Char) → List Char → Bool
  | [], _ => true
  | p :: ps, seg =>
      match dropToAfter p seg with
      | none => false
      | some rest => chainInSeg ps rest

/-- Header test `/candidate.*name.*email.*address/i`: since `.` matches
everything but a line terminator and the literals contain none, the regex
matches iff some terminator-free segment contains the four literals in
order. -/
def candNameEmailHdr (h : String) : Bool :=
  (splitSegsAux [] (lcStr h).toList).any
    (chainInSeg ["candidate".toList, "name".toList, "email".toList, "address".toList])

/-- `firstIdx`: where the second header row says "first name". -/
def firstIdxI (header1 : List String) : Int := jsFindIndex firstNameHdr header1

/-- `lastIdx`: where the second header row says "last name". -/
def lastIdxI (header1 : List String) : Int := jsFindIndex lastNameHdr header1

/-- `nameMixedCol`: a standalone "name" header or a combined
name-and-email header in the first header row. -/
def nameMixedColI (header0 : List String) : Int :=
  jsFindIndex (fun h => pureNameHdr h || candNameEmailHdr h) header0

/-- The per-group `bucket={yes,no,undecided,comment}` of column indices. -/
structure Bucket where
  yes : List Nat
  no : List Nat
  undecided : List Nat
  comment : List Nat
deriving DecidableEq, Repr

def emptyBucket : Bucket := ⟨[], [], [], []⟩

/-- `lc(normalize(header1[idx]))`, with out-of-range reading as `''`. -/
def labelAt (header1 : List String) (idx : Nat) : String :=
  lcStr (jsTrim (header1.getD idx ""))

def commentLabels : List String :=
  ["additional comments", "additional comments:",
   "open-ended response", "open-ended response:"]

/-- Partition a group's column indices by their second-row label. -/
def buildBucket (header1 : List String) (idxs : List Nat) : Bucket :=
  idxs.foldl
    (fun b idx =>
      let lab := labelAt header1 idx
      if lab = "yes" then { b with yes := b.yes ++ [idx] }
      else if lab = "no" then { b with no := b.no ++ [idx] }
      else if lab = "undecided" then { b with undecided := b.undecided ++ [idx] }
      else if commentLabels.contains lab then { b with comment := b.comment ++ [idx] }
      else b)
    emptyBucket

/-- `arr[i]` on a raw data row (out of range = `undefined` = `none`). -/
def cellAt (arr : List (Option String)) (i : Nat) : Option String := arr.getD i none

/-- `v != null && String(v).trim() !== ''`. -/
def cellNE (arr : List (Option String)) (i : Nat) : Bool :=
  match cellAt arr i with
  | none => false
  | some s => jsTrim s ≠ ""

/-- First non-empty trimmed cell among the given indices, else `''`. -/
def firstNonEmptyVal (arr : List (Option String)) : List Nat → String
  | [] => ""
  | i :: rest =>
      if cellNE arr i then jsTrim ((cellAt arr i).getD "")
      else firstNonEmptyVal arr rest

/-- `label[0].toUpperCase() + label.slice(1)`. -/
def capFirst (s : String) : String :=
  match s.toList with
  | [] => ""
  | c :: cs => String.mk (c.toUpper :: cs)

/-- The answer-resolution loop: first label whose bucket has a non-empty
cell wins, capitalized; all buckets empty gives `''`. -/
def scanLabels (arr : List (Option String)) : List (String × List Nat) → String
  | [] => ""
  | (lab, idxs) :: rest =>
      if ((idxs.find? (cellNE arr)).isSome) then capFirst lab
      else scanLabels arr rest

/-- Resolve a group's answer in choices mode: `yes`, then `no`, then
`undecided`, in that fixed order. -/
def resolveAnswer (b : Bucket) (arr : List (Option String)) : String :=
  scanLabels arr [("yes", b.yes), ("no", b.no), ("undecided", b.undecided)]

/-- A JS row object: insertion-ordered association list. -/
abbrev RowObj := List (String × String)

/-- `obj[k] = v`: update in place when present, else append. -/
def setField : RowObj → String → String → RowObj
  | [], k, v => [(k, v)]
  | (k', v') :: rest, k, v =>
      if k' = k then (k', v) :: rest
      else (k', v') :: setField rest k v

/-- `obj[k]`, with a missing key reading as `''` (as `normalize` would). -/
def getField (r : RowObj) (k : String) : String :=
  match r.find? (fun p => p.1 = k) with
  | some p => p.2
  | none => ""

/-- The `__Ward` scan over the ward slice: at the first non-empty cell use
the second-row label when in choices mode and it is non-empty, else the
first-row header, else the cell value itself. -/
def wardValScan (choices : Bool) (header0 header1 : List String)
    (arr : List (Option String)) : List Nat → String
  | [] => ""
  | c :: rest =>
      let v := normCell (cellAt arr c)
      if v = "" then wardValScan choices header0 header1 arr rest
      else if choices && header1.getD c "" ≠ "" then jsTrim (header1.getD c "")
      else if jsTrim (header0.getD c "") ≠ "" then jsTrim (header0.getD c "")
      else v

/-- Choices-mode per-group writes: the resolved answer under the group key
and the first non-empty comment cell under `__COMMENT::<group>`. -/
def applyGroupChoices (header1 : List String) (arr : List (Option String))
    (obj : RowObj) (g : String) (idxs : List Nat) : RowObj :=
  setField (setField obj g (resolveAnswer (buildBucket header1 idxs) arr))
    ("__COMMENT::" ++ g) (firstNonEmptyVal arr (buildBucket header1 idxs).comment)

/-- One iteration of the per-group loop of the row builder. -/
def groupFoldStep (choices : Bool) (header1 : List String)
    (arr : List (Option String)) (o : RowObj) (p : String × List Nat) : RowObj :=
  if choices then applyGroupChoices header1 arr o p.1 p.2
  else setField o p.1 (firstNonEmptyVal arr p.2)

/-- The `__Ward` write of the row builder (only when a slice exists). -/
def setWardField (choices : Bool) (header0 header1 : List String)
    (slice : Option (Nat × Nat)) (arr : List (Option String)) (obj : RowObj) : RowObj :=
  match slice with
  | none => obj
  | some (s, e) =>
      setField obj "__Ward"
        (wardValScan choices header0 header1 arr (List.range' s (e - s)))

/-- The conditional `__FirstName`/`__LastName`/`__NameMixed` writes. -/
def setNameFields (fIdx lIdx nmc : Int) (arr : List (Option String)) (obj : RowObj) : RowObj :=
  let o1 := if 0 ≤ fIdx then setField obj "__FirstName" (normCell (cellAt arr fIdx.toNat)) else obj
  let o2 := if 0 ≤ lIdx then setField o1 "__LastName" (normCell (cellAt arr lIdx.toNat)) else o1
  if 0 ≤ nmc then setField o2 "__NameMixed" (normCell (cellAt arr nmc.toNat)) else o2

/-- Build one normalized row object from a raw data row. -/
def buildRowObj (choices : Bool) (header0 header1 : List String)
    (groups : List (String × List Nat)) (slice : Option (Nat × Nat))
    (fIdx lIdx nmc : Int) (arr : List (Option String)) : RowObj :=
  setNameFields fIdx lIdx nmc arr
    (setWardField choices header0 header1 slice arr
      (groups.foldl (groupFoldStep choices header1 arr) []))

/-- Row admission: some field is non-empty after trimming. -/
def admitRow (r : RowObj) : Bool := r.any (fun p => jsTrim p.2 ≠ "")

/-- The `ynu` set of the issue classifier. -/
def ynuVals : List String := ["yes", "no", "undecided"]

/-- One row of the per-column counting pass of the issue classifier. -/
def countsStep (c : String) (acc : Nat × Nat) (row : RowObj) : Nat × Nat :=
  let v := jsTrim (getField row c)
  if v = "" then acc
  else (acc.1 + 1, if ynuVals.contains (lcStr v) then acc.2 + 1 else acc.2)

/-- Per-column counting pass of the issue classifier:
`(nonEmpty, ynuCount)` over the normalized rows. -/
def countsFor (rows : List RowObj) (c : String) : Nat × Nat :=
  rows.foldl (countsStep c) (0, 0)

/-- One column of the issue classifier: keep it when `nonEmpty > 0` and
`ynuCount/nonEmpty >= 0.7` (embedded exactly as `7*nonEmpty ≤ 10*ynuCount`). -/
def issueStep (rows : List RowObj) (acc : List String) (c : String) : List String :=
  let n := countsFor rows c
  if 0 < n.1 && 7 * n.1 ≤ 10 * n.2 then acc ++ [c] else acc

/-- `issueColumns` over the normalized rows. -/
def issueColumnsOf (rows : List RowObj) (cols : List String) : List String :=
  cols.foldl (issueStep rows) []

/-- The regex `/\bward\b/i`, scanned with the word-ness of the previous
character; the char after a hit is read with a non-word default. -/
def wardWordFrom (prevWord : Bool) : List Char → Bool
  | [] => false
  | c :: rest =>
      (!prevWord && listStartsWith "ward".toList (c :: rest)
        && !(isWordC ((c :: rest).getD 4 ' ')))
      || wardWordFrom (isWordC c) rest

def hasWardWord (c : String) : Bool := wardWordFrom false (lcStr c).toList

/-- `wardColumn`: the synthetic `__Ward` when a slice exists, else the
first column whose name contains the word "ward", else none. -/
def wardColumnOf (slice : Option (Nat × Nat)) (cols : List String) : Option String :=
  if slice.isSome then some "__Ward" else cols.find? hasWardWord

/-- The record returned by `cleanSurveyFromPapa`. -/
structure SurveyResult where
  rows : List RowObj
  issueColumns : List String
  wardColumn : Option String
  cols : List String
  commentForIssue : List (String × String)
  firstIdx : Int
  lastIdx : Int
  nameMixedCol : Int
deriving DecidableEq, Repr

/-- The explicit empty result for malformed input. -/
def emptyResult : SurveyResult := ⟨[], [], none, [], [], -1, -1, -1⟩

/-- `header0`: first raw row with `String(h ?? '')` applied per cell. -/
def hdr0Of (data : List (List (Option String))) : List String :=
  (data.getD 0 []).map (fun c => c.getD "")

/-- `header1`: second raw row with `String(h ?? '')` applied per cell. -/
def hdr1Of (data : List (List (Option String))) : List String :=
  (data.getD 1 []).map (fun c => c.getD "")

/-- The column groups of a grid (main-file ward slice). -/
def groupsOf (data : List (List (Option String))) : List (String × List Nat) :=
  buildGroups (ffillHeaders (hdr0Of data)) (wardSliceMain (hdr0Of data))

/-- `dataStart`: data begins at row 2 in choices mode, else at row 1. -/
def dataStartOf (data : List (List (Option String))) : Nat :=
  if header1IsChoices (hdr1Of data) then 2 else 1

/-- The row object built for one raw data row of a grid. -/
def rowFor (data : List (List (Option String))) (arr : List (Option String)) : RowObj :=
  buildRowObj (header1IsChoices (hdr1Of data)) (hdr0Of data) (hdr1Of data)
    (groupsOf data) (wardSliceMain (hdr0Of data)) (firstIdxI (hdr1Of data))
    (lastIdxI (hdr1Of data)) (nameMixedColI (hdr0Of data)) arr

/-- One raw data row of the row-collection loop: admit the built row when
some field is non-empty. -/
def rowStep (data : List (List (Option String))) (acc : List RowObj)
    (arr : List (Option String)) : List RowObj :=
  if admitRow (rowFor data arr) then acc ++ [rowFor data arr] else acc

/-- The normalized-and-admitted rows of a grid. -/
def rowsOf (data : List (List (Option String))) : List RowObj :=
  (data.drop (dataStartOf data)).foldl (rowStep data) []

/-- `cols`: trimmed group keys. -/
def colsOf (data : List (List (Option String))) : List String :=
  (groupsOf data).map (fun p => jsTrim p.1)

/-- `cleanSurveyFromPapa` of `src/voter_guide.js`.  The input is `none`
when `papa.data` is not an array, else the grid of raw rows. -/
def cleanSurvey (input : Option (List (List (Option String)))) : SurveyResult :=
  match input with
  | none => emptyResult
  | some data =>
      if data.length < 2 then emptyResult
      else
        { rows := rowsOf data
          issueColumns := issueColumnsOf (rowsOf data) (colsOf data)
          wardColumn := wardColumnOf (wardSliceMain (hdr0Of data)) (colsOf data)
          cols := colsOf data
          commentForIssue :=
            if header1IsChoices (hdr1Of data) then
              (groupsOf data).map (fun p => (p.1, "__COMMENT::" ++ p.1))
            else []
          firstIdx := firstIdxI (hdr1Of data)
          lastIdx := lastIdxI (hdr1Of data)
          nameMixedCol := nameMixedColI (hdr0Of data) }

/-- The regex `/mayor/i` test of the ward/mayor aggregation. -/
def hasMayor (s : String) : Bool := containsCI "mayor" s

/-- `match(/\d+/)`: the first maximal digit run of a string. -/
def firstDigitRun (s : String) : Option (List Char) :=
  let l := s.toList.dropWhile (fun c => !isDigitC c)
  if l.isEmpty then none else some (l.takeWhile isDigitC)

/-- Decimal value of a digit run (`parseInt(run, 10)`). -/
def natOfDigits (ds : List Char) : Nat :=
  ds.foldl (fun acc c => 10 * acc + (c.toNat - '0'.toNat)) 0

/-- `m ? String(parseInt(m[0],10)) : ''`: canonical ward key, `''` when the
ward label has no digits. -/
def wardKeyJS (w : String) : String :=
  match firstDigitRun w with
  | none => ""
  | some ds => Nat.repr (natOfDigits ds)

/-- `byWardAll.get(k).push(row)` with creation on first use. -/
def pushWardRow : List (String × List RowObj) → String → RowObj → List (String × List RowObj)
  | [], k, r => [(k, [r])]
  | (k', rs) :: rest, k, r =>
      if k' = k then (k', rs ++ [r]) :: rest
      else (k', rs) :: pushWardRow rest k r

/-- One iteration of the ward/mayor aggregation loop. -/
def stepWM (acc : List (String × List RowObj) × List RowObj) (r : RowObj) :
    List (String × List RowObj) × List RowObj :=
  let w := getField r "__Ward"
  if hasMayor w then (acc.1, acc.2 ++ [r])
  else
    let k := wardKeyJS w
    if k = "" then acc else (pushWardRow acc.1 k r, acc.2)

/-- `byWardAll` and `mayorAll` built from the normalized rows. -/
def buildWardGroups (rows : List RowObj) : List (String × List RowObj) × List RowObj :=
  rows.foldl stepWM ([], [])

/-- `byWardAll.get(k)` with a missing key reading as the empty list. -/
def lookupRows (gs : List (String × List RowObj)) (k : String) : List RowObj :=
  match gs.find? (fun p => p.1 = k) with
  | some p => p.2
  | none => []

def mayorAllOf (rows : List RowObj) : List RowObj := (buildWardGroups rows).2

def wardListAt (rows : List RowObj) (k : String) : List RowObj :=
  lookupRows (buildWardGroups rows).1 k

/-- `replace(/\s+/g,' ')`: each maximal whitespace run becomes one space. -/
def collapseWsAux (prevWs : Bool) : List Char → List Char
  | [] => []
  | c :: rest =>
      if isWsJS c then
        (if prevWs then collapseWsAux true rest else ' ' :: collapseWsAux true rest)
      else c :: collapseWsAux false rest

def collapseWs (l : List Char) : List Char := collapseWsAux false l

/-- Suffix just after the first `'>'`, if any (the `[^>]*>` tail). -/
def dropThroughGt : List Char → Option (List Char)
  | [] => none
  | c :: rest => if c = '>' then some rest else dropThroughGt rest

theorem dropThroughGt_length : ∀ {l r : List Char}, dropThroughGt l = some r → r.length < l.length := by
  intro l
  induction l with
  | nil => intro r h; simp [dropThroughGt] at h
  | cons c rest ih =>
      intro r h
      by_cases hc : c = '>'
      · simp [dropThroughGt, hc] at h
        subst h; simp
      · simp [dropThroughGt, hc] at h
        have := ih h
        simp; omega

/-- Attempt of `\s*<[^>]*>` at the head of `s`: the greedy `\s*` is forced
to the maximal run because `<` is not whitespace. -/
def tryAngle (s : List Char) : Option (List Char) :=
  match s.dropWhile isWsJS with
  | '<' :: t => dropThroughGt t
  | _ => none

theorem tryAngle_length : ∀ {s r : List Char}, tryAngle s = some r → r.length < s.length := by
  intro s r h
  unfold tryAngle at h
  split at h
  next t heq =>
    have h1 := dropThroughGt_length h
    have h2 : ('<' :: t).length ≤ s.length := by
      rw [← heq]; exact (List.dropWhile_sublist isWsJS).length_le
    simp at h2; omega
  next => exact absurd h (by simp)

/-- `replace(/\s*<[^>]*>/g,'')`: leftmost-scan removal of angle groups.
Structural recursion on a fuel argument; by `tryAngle_length` every step
consumes at least one character, so fuel `l.length` never runs short and
the `0, l` equation is unreachable from `stripAngles`. -/
def stripAnglesF : Nat → List Char → List Char
  | _, [] => []
  | 0, l => l
  | fuel + 1, c :: rest =>
      match tryAngle (c :: rest) with
      | some r => stripAnglesF fuel r
      | none => c :: stripAnglesF fuel rest

def stripAngles (l : List Char) : List Char := stripAnglesF l.length l

/-- The `\b` assertion inside a maximal non-space run, at offset `e ≥ 1`:
the character after the run (or the end) is never a word character. -/
def boundaryEndB (run : List Char) (e : Nat) : Bool :=
  isWordC (run.getD (e - 1) ' ')
    != (if e < run.length then isWordC (run.getD e ' ') else false)

/-- Greedy second `\S+`: the largest end offset `e ≥ a+2` with `\b` at `e`. -/
def bestEndFor (run : List Char) (a : Nat) : Option Nat :=
  ((List.range (run.length + 1)).filter
    (fun e => a + 2 ≤ e && boundaryEndB run e)).getLast?

/-- Greedy first `\S+`: candidate `'@'` offsets, largest first. -/
def atCandidates (run : List Char) : List Nat :=
  ((List.range run.length).filter (fun a => 1 ≤ a && run.getD a ' ' = '@')).reverse

def firstHit (f : Nat → Option Nat) : List Nat → Option Nat
  | [] => none
  | a :: rest =>
      match f a with
      | some e => some e
      | none => firstHit f rest

/-- Backtracking match of `\b\S+@\S+\b` at the head of `s` (given the
word-ness of the previous character); returns the match length. -/
def matchEmail (prevWord : Bool) (s : List Char) : Option Nat :=
  match s.takeWhile (fun c => !isWsJS c) with
  | [] => none
  | c0 :: _ =>
      if prevWord = isWordC c0 then none
      else firstHit (bestEndFor (s.takeWhile (fun c => !isWsJS c)))
             (atCandidates (s.takeWhile (fun c => !isWsJS c)))

theorem getLast?_mem : ∀ {l : List α} {a : α}, l.getLast? = some a → a ∈ l := by
  intro l
  induction l with
  | nil => intro a h; simp at h
  | cons x rest ih =>
      intro a h
      cases rest with
      | nil => simp at h; simp [h]
      | cons y t =>
          rw [List.getLast?_cons_cons] at h
          exact List.mem_cons_of_mem x (ih h)

theorem firstHit_ex : ∀ {l : List Nat} {f : Nat → Option Nat} {e : Nat},
    firstHit f l = some e → ∃ a ∈ l, f a = some e := by
  intro l
  induction l with
  | nil => intro f e h; simp [firstHit] at h
  | cons a rest ih =>
      intro f e h
      unfold firstHit at h
      split at h
      next heq => exact ⟨a, by simp, by rw [heq, h]⟩
      next =>
        obtain ⟨a', ha', hf⟩ := ih h
        exact ⟨a', by simp [ha'], hf⟩

theorem bestEndFor_bounds {run : List Char} {a e : Nat}
    (h : bestEndFor run a = some e) : a + 2 ≤ e ∧ e ≤ run.length := by
  have hm := getLast?_mem h
  rw [List.mem_filter] at hm
  obtain ⟨hr, hp⟩ := hm
  rw [List.mem_range] at hr
  simp only [Bool.and_eq_true, decide_eq_true_eq] at hp
  exact ⟨hp.1, by omega⟩

theorem matchEmail_bounds : ∀ {p : Bool} {s : List Char} {e : Nat},
    matchEmail p s = some e → 3 ≤ e ∧ e ≤ s.length := by
  intro p s e h
  unfold matchEmail at h
  split at h
  next => simp at h
  next c0 rest heq =>
    split at h
    next => simp at h
    next =>
      obtain ⟨a, ha, hf⟩ := firstHit_ex h
      have hb := bestEndFor_bounds hf
      have ha1 : 1 ≤ a := by
        unfold atCandidates at ha
        rw [List.mem_reverse, List.mem_filter] at ha
        simp only [Bool.and_eq_true, decide_eq_true_eq] at ha
        exact ha.2.1
      have hlen : (s.takeWhile (fun c => !isWsJS c)).length ≤ s.length :=
        (List.takeWhile_sublist _).length_le
      omega

/-- `replace(/\b\S+@\S+\b/g,'')`: leftmost scan, removing each match and
resuming just after it with the word-ness of its last character.
Structural recursion on a fuel argument; by `matchEmail_bounds` every step
consumes at least one character, so fuel `l.length` never runs short and
the `0, _, l` equation is unreachable from `stripEmails`. -/
def stripEmailsF : Nat → Bool → List Char → List Char
  | _, _, [] => []
  | 0, _, l => l
  | fuel + 1, prevWord, c :: rest =>
      match matchEmail prevWord (c :: rest) with
      | some e => stripEmailsF fuel (isWordC ((c :: rest).getD (e - 1) ' ')) ((c :: rest).drop e)
      | none => c :: stripEmailsF fuel (isWordC c) rest

def stripEmails (l : List Char) : List Char := stripEmailsF l.length false l

/-- `combo`: `(fn+' '+ln).replace(/\s+/g,' ').trim()`. -/
def comboOf (row : RowObj) : String :=
  String.mk (trimList (collapseWs
    (jsTrim (getField row "__FirstName") ++ " " ++ jsTrim (getField row "__LastName")).toList))

/-- The mixed-name fallback: angle groups stripped, then email-shaped
tokens stripped, then whitespace collapsed, then trimmed. -/
def strippedMixOf (row : RowObj) : String :=
  String.mk (trimList (collapseWs (stripEmails (stripAngles
    (jsTrim (getField row "__NameMixed")).toList))))

/-- `buildName` of `src/voter_guide.js`: first+last name collapsed and
trimmed; else the mixed name with angle groups and email-shaped tokens
stripped and whitespace collapsed; else the literal `"(name)"`. -/
def buildName (row : RowObj) : String :=
  if comboOf row ≠ "" then comboOf row
  else if jsTrim (getField row "__NameMixed") ≠ "" then
    (if strippedMixOf row ≠ "" then strippedMixOf row else "(name)")
  else "(name)"

/-! Helper lemmas. -/

theorem find?_isSome_eq_any (p : α → Bool) : ∀ l : List α, (l.find? p).isSome = l.any p := by
  intro l
  induction l with
  | nil => rfl
  | cons x xs ih => by_cases h : p x <;> simp [List.find?_cons, h, ih]

theorem ffillAux_getD : ∀ (prev : String) (l : List String) (i : Nat), i < l.length →
    (ffillAux prev l).getD i "" =
      if keepHeader (l.getD i "") then l.getD i ""
      else if i = 0 then prev else (ffillAux prev l).getD (i - 1) "" := by
  intro prev l
  induction l generalizing prev with
  | nil => intro i h; simp at h
  | cons x xs ih =>
      intro i hi
      cases i with
      | zero => simp [ffillAux]
      | succ j =>
          have hj : j < xs.length := by simpa using hi
          have hx := ih (if keepHeader x then x else prev) j hj
          simp only [ffillAux, List.getD_cons_succ]
          rw [hx]
          cases j with
          | zero => simp [ffillAux]
          | succ m => simp [ffillAux]

/-! Claim theorems, with a counterexample and witness apparatus where the
claim calls for one. -/

/-- A first header row on which the main file and the spec disagree about
the ward-slice lower bound. -/
def c1Header : List String :=
  ["I'm a candidate for:", "Ward 1", "Candidate Name and Email Address"]

/-- C1 counterexample: on this header row the anchors are at 0 and 2, but
`src/voter_guide.js` computes the slice `{start: 0, end: 2}`, not the
claimed `{start: idxStart+1, end: 2}` — the anchor question column is
included, not excluded. -/
theorem c1_slice_counterexample :
    idxStartI c1Header = 0 ∧ idxEndFallbackI c1Header = 2 ∧
      wardSliceMain c1Header = some (0, 2) ∧
      wardSliceMain c1Header ≠ some (0 + 1, 2) :=
  ⟨by decide, by decide, by decide, by decide⟩

/-- C1 (amended): when the start anchor is found at `s` and the end anchor
resolves to `e > s`, `src/voter_guide.js` computes the half-open ward slice
`{start: s, end: e}` (anchor column included), while the
`part_000`/`part_001`/`part_002` variants compute `{start: s+1, end: e}`
(anchor column excluded). -/
theorem c1_wardSlice_variants (header0 : List String) (s e : Nat)
    (hs : idxStartI header0 = Int.ofNat s)
    (he : idxEndFallbackI header0 = Int.ofNat e) (hlt : s < e) :
    wardSliceMain header0 = some (s, e) ∧
      wardSliceVariant header0 = some (s + 1, e) := by
  have hcond : 0 ≤ idxStartI header0 ∧ idxStartI header0 < idxEndFallbackI header0 := by
    rw [hs, he]
    exact ⟨Int.ofNat_nonneg s, Int.ofNat_lt.mpr hlt⟩
  constructor
  · unfold wardSliceMain
    rw [if_pos hcond, hs, he]
    simp
  · unfold wardSliceVariant
    rw [if_pos hcond, hs, he]
    simp

/-- C1 witness: the amended theorem applied to the concrete header row. -/
theorem c1_wardSlice_variants_witness :
    wardSliceMain c1Header = some (0, 2) ∧ wardSliceVariant c1Header = some (0 + 1, 2) :=
  c1_wardSlice_variants c1Header 0 2 (by decide) (by decide) (by decide)

/-- C2: the second header row is classified as a choice row iff it has at
least one non-empty cell and at least half (inclusive boundary) of its
non-empty cells are choice tokens; with no non-empty cells it is never a
choice row. -/
theorem c2_choice_row_threshold (header1 : List String) :
    header1IsChoices header1 = true ↔
      0 < (nonEmptyCells header1).length ∧
        (1 : ℚ) / 2 ≤ (((nonEmptyCells header1).filter isChoiceToken).length : ℚ)
          / ((nonEmptyCells header1).length : ℚ) := by
  unfold header1IsChoices
  simp only [Bool.and_eq_true, decide_eq_true_eq]
  constructor
  · rintro ⟨h1, h2⟩
    refine ⟨h1, ?_⟩
    have hn : (0 : ℚ) < ((nonEmptyCells header1).length : ℚ) := by exact_mod_cast h1
    rw [div_le_div_iff₀ (by norm_num) hn, one_mul]
    exact_mod_cast (by omega :
      (nonEmptyCells header1).length ≤ ((nonEmptyCells header1).filter isChoiceToken).length * 2)
  · rintro ⟨h1, h2⟩
    refine ⟨h1, ?_⟩
    have hn : (0 : ℚ) < ((nonEmptyCells header1).length : ℚ) := by exact_mod_cast h1
    rw [div_le_div_iff₀ (by norm_num) hn, one_mul] at h2
    have h2' : (nonEmptyCells header1).length ≤
        ((nonEmptyCells header1).filter isChoiceToken).length * 2 := by exact_mod_cast h2
    omega

/-- C3: in choices mode the answer is resolved by checking the yes, no and
undecided buckets in that fixed order, the first bucket containing a
non-empty cell giving its capitalized label, and `""` when all buckets are
empty-celled; in particular an empty yes bucket plus a non-empty no cell
resolves to `"No"`. -/
theorem c3_answer_precedence (b : Bucket) (arr : List (Option String)) :
    (resolveAnswer b arr =
      if b.yes.any (cellNE arr) then "Yes"
      else if b.no.any (cellNE arr) then "No"
      else if b.undecided.any (cellNE arr) then "Undecided" else "") ∧
    ((∀ i ∈ b.yes, cellNE arr i = false) → (∃ i ∈ b.no, cellNE arr i = true) →
      resolveAnswer b arr = "No") := by
  have hchar : resolveAnswer b arr =
      if b.yes.any (cellNE arr) then "Yes"
      else if b.no.any (cellNE arr) then "No"
      else if b.undecided.any (cellNE arr) then "Undecided" else "" := by
    by_cases hy : b.yes.any (cellNE arr) <;>
      by_cases hn : b.no.any (cellNE arr) <;>
        by_cases hu : b.undecided.any (cellNE arr) <;>
          simp [resolveAnswer, scanLabels, find?_isSome_eq_any, hy, hn, hu] <;> rfl
  refine ⟨hchar, ?_⟩
  intro h1 h2
  rw [hchar]
  have hy : b.yes.any (cellNE arr) = false := by
    rw [List.any_eq_false]
    intro i hi
    simp [h1 i hi]
  have hn : b.no.any (cellNE arr) = true := by
    rw [List.any_eq_true]
    obtain ⟨i, hi, hne⟩ := h2
    exact ⟨i, hi, by simp [hne]⟩
  simp [hy, hn]

/-- C3 witness: a bucket whose yes column is empty-celled and whose no
column has a non-empty cell resolves to `"No"`. -/
theorem c3_answer_precedence_witness :
    resolveAnswer ⟨[0], [1], [], []⟩ [none, some "x"] = "No" :=
  (c3_answer_precedence ⟨[0], [1], [], []⟩ [none, some "x"]).2
    (by decide) ⟨1, by decide, by decide⟩

/-- C5: the forward-filled header of column `i` is `row0[i]` when that cell
is non-empty and not `/^Unnamed/i`, else the forward-filled header of
column `i-1` (empty at `i = 0`); on `["Q1","","Unnamed: 2","Q2"]` the
grouping puts columns 0, 1, 2 under `"Q1"` and column 3 under `"Q2"`. -/
theorem c5_forward_fill :
    (∀ (header0 : List String) (i : Nat), i < header0.length →
      (ffillHeaders header0).getD i "" =
        if keepHeader (header0.getD i "") then header0.getD i ""
        else if i = 0 then "" else (ffillHeaders header0).getD (i - 1) "") ∧
    buildGroups (ffillHeaders ["Q1", "", "Unnamed: 2", "Q2"]) none =
      [("Q1", [0, 1, 2]), ("Q2", [3])] := by
  constructor
  · intro header0 i hi
    exact ffillAux_getD "" header0 i hi
  · decide

/-- C5 witness: the characterization applied at column 2 of the example
header row evaluates to `"Q1"`. -/
theorem c5_forward_fill_witness :
    (ffillHeaders ["Q1", "", "Unnamed: 2", "Q2"]).getD 2 "" = "Q1" := by
  have h := c5_forward_fill.1 ["Q1", "", "Unnamed: 2", "Q2"] 2 (by decide)
  exact h.trans (by decide)

/-- C8: a parsed input whose grid is not an array (`none`) or has fewer
than 2 rows yields the defined empty result — empty rows, issue columns,
cols and comment map, no ward column, and `-1` name indices. -/
theorem c8_short_grid_empty (input : Option (List (List (Option String))))
    (h : input = none ∨ ∃ data, input = some data ∧ data.length < 2) :
    cleanSurvey input = emptyResult := by
  rcases h with h | ⟨data, rfl, hlen⟩
  · rw [h]; rfl
  · simp [cleanSurvey, hlen]

/-- C8 witness: a one-row grid yields the empty result. -/
theorem c8_short_grid_empty_witness :
    cleanSurvey (some [[some "only one row"]]) = emptyResult :=
  c8_short_grid_empty (some [[some "only one row"]]) (Or.inr ⟨_, rfl, by decide⟩)

/-- C9: the display name prefers the collapsed trimmed first+last
combination; with that empty and a non-empty mixed name it is the
angle-and-email-stripped collapsed mixed name, or the placeholder when the
stripping empties it; with all name fields empty it is `"(name)"`; and the
mixed name `"Jane Doe <jane@x.com>"` with empty first/last yields
`"Jane Doe"`. -/
theorem c9_name_fallback_chain :
    (∀ row : RowObj, comboOf row ≠ "" → buildName row = comboOf row) ∧
    (∀ row : RowObj, comboOf row = "" → jsTrim (getField row "__NameMixed") ≠ "" →
      buildName row = (if strippedMixOf row ≠ "" then strippedMixOf row else "(name)")) ∧
    (∀ row : RowObj, comboOf row = "" → jsTrim (getField row "__NameMixed") = "" →
      buildName row = "(name)") ∧
    buildName [("__FirstName", ""), ("__LastName", ""),
      ("__NameMixed", "Jane Doe <jane@x.com>")] = "Jane Doe" ∧
    buildName [] = "(name)" := by
  refine ⟨?_, ?_, ?_, by decide, by decide⟩
  · intro row h
    simp [buildName, h]
  · intro row h1 h2
    simp [buildName, h1, h2]
  · intro row h1 h2
    simp [buildName, h1, h2]

/-- C9 witness: the first link of the chain applied to a concrete row. -/
theorem c9_name_fallback_chain_witness :
    buildName [("__FirstName", " Jane "), ("__LastName", "Doe")] =
      comboOf [("__FirstName", " Jane "), ("__LastName", "Doe")] :=
  c9_name_fallback_chain.1 [("__FirstName", " Jane "), ("__LastName", "Doe")] (by decide)

theorem countsFor_aux (c : String) : ∀ (rows : List RowObj) (a b : Nat),
    rows.foldl (countsStep c) (a, b) =
    (a + (rows.filter (fun r => jsTrim (getField r c) ≠ "")).length,
     b + (rows.filter (fun r => jsTrim (getField r c) ≠ "" ∧
        lcStr (jsTrim (getField r c)) ∈ ynuVals)).length) := by
  intro rows
  induction rows with
  | nil => intro a b; simp
  | cons r rest ih =>
      intro a b
      rw [List.foldl_cons]
      by_cases hv : jsTrim (getField r c) = ""
      · have hs : countsStep c (a, b) r = (a, b) := by simp [countsStep, hv]
        rw [hs, ih a b]
        simp [List.filter_cons, hv]
      · by_cases hy : lcStr (jsTrim (getField r c)) ∈ ynuVals
        · have hs : countsStep c (a, b) r = (a + 1, b + 1) := by
            simp [countsStep, hv, hy]
          rw [hs, ih (a + 1) (b + 1)]
          simp [List.filter_cons, hv, hy, Prod.ext_iff]
          omega
        · have hs : countsStep c (a, b) r = (a + 1, b) := by
            simp [countsStep, hv, hy]
          rw [hs, ih (a + 1) b]
          simp [List.filter_cons, hv, hy, Prod.ext_iff]
          omega

theorem countsFor_eq_filter (rows : List RowObj) (c : String) :
    countsFor rows c =
      ((rows.filter (fun r => jsTrim (getField r c) ≠ "")).length,
       (rows.filter (fun r => jsTrim (getField r c) ≠ "" ∧
          lcStr (jsTrim (getField r c)) ∈ ynuVals)).length) := by
  have h := countsFor_aux c rows 0 0
  unfold countsFor
  simpa using h

theorem mem_issueColumnsOf_aux (rows : List RowObj) :
    ∀ (cols acc : List String) (c : String),
      (c ∈ cols.foldl (issueStep rows) acc) ↔
      c ∈ acc ∨ (c ∈ cols ∧ 0 < (countsFor rows c).1 ∧
        7 * (countsFor rows c).1 ≤ 10 * (countsFor rows c).2) := by
  intro cols
  induction cols with
  | nil => intro acc c; simp
  | cons x rest ih =>
      intro acc c
      rw [List.foldl_cons]
      by_cases hx : 0 < (countsFor rows x).1 ∧ 7 * (countsFor rows x).1 ≤ 10 * (countsFor rows x).2
      · have hs : issueStep rows acc x = acc ++ [x] := by
          simp [issueStep, hx.1, hx.2]
        rw [hs, ih (acc ++ [x]) c]
        constructor
        · rintro (hmem | hrest)
          · rw [List.mem_append] at hmem
            rcases hmem with h | h
            · exact Or.inl h
            · simp at h
              subst h
              exact Or.inr ⟨by simp, hx.1, hx.2⟩
          · exact Or.inr ⟨by simp [hrest.1], hrest.2⟩
        · rintro (hmem | ⟨hc, h1, h2⟩)
          · exact Or.inl (by simp [hmem])
          · rcases List.mem_cons.mp hc with rfl | hc'
            · exact Or.inl (by simp)
            · exact Or.inr ⟨hc', h1, h2⟩
      · have hs : issueStep rows acc x = acc := by
          unfold issueStep
          rcases Decidable.not_and_iff_or_not.mp hx with h | h <;> simp [h]
        rw [hs, ih acc c]
        constructor
        · rintro (h | hrest)
          · exact Or.inl h
          · exact Or.inr ⟨by simp [hrest.1], hrest.2⟩
        · rintro (h | ⟨hc, h1, h2⟩)
          · exact Or.inl h
          · rcases List.mem_cons.mp hc with rfl | hc'
            · exact absurd ⟨h1, h2⟩ hx
            · exact Or.inr ⟨hc', h1, h2⟩

/-- C4: the issue classifier counts non-empty values and exact (lower-cased)
yes/no/undecided values per group, and keeps a group iff the non-empty count
is positive and the yes/no/undecided fraction is at least 0.7 (inclusive). -/
theorem c4_issue_threshold (rows : List RowObj) (cols : List String) (c : String)
    (hc : c ∈ cols) :
    (countsFor rows c).1 = (rows.filter (fun r => jsTrim (getField r c) ≠ "")).length ∧
    (countsFor rows c).2 = (rows.filter (fun r => jsTrim (getField r c) ≠ "" ∧
        lcStr (jsTrim (getField r c)) ∈ ynuVals)).length ∧
    (c ∈ issueColumnsOf rows cols ↔
      0 < (countsFor rows c).1 ∧
        (7 : ℚ) / 10 ≤ ((countsFor rows c).2 : ℚ) / ((countsFor rows c).1 : ℚ)) := by
  refine ⟨by rw [countsFor_eq_filter], by rw [countsFor_eq_filter], ?_⟩
  unfold issueColumnsOf
  rw [mem_issueColumnsOf_aux rows cols [] c]
  simp only [List.not_mem_nil, false_or]
  constructor
  · rintro ⟨_, h1, h2⟩
    refine ⟨h1, ?_⟩
    have hn : (0 : ℚ) < ((countsFor rows c).1 : ℚ) := by exact_mod_cast h1
    rw [div_le_div_iff₀ (by norm_num) hn]
    exact_mod_cast (by omega :
      7 * (countsFor rows c).1 ≤ (countsFor rows c).2 * 10)
  · rintro ⟨h1, h2⟩
    refine ⟨hc, h1, ?_⟩
    have hn : (0 : ℚ) < ((countsFor rows c).1 : ℚ) := by exact_mod_cast h1
    rw [div_le_div_iff₀ (by norm_num) hn] at h2
    have h2' : 7 * (countsFor rows c).1 ≤ (countsFor rows c).2 * 10 := by exact_mod_cast h2
    omega

/-- Ten one-field rows of which exactly seven answer yes. -/
def c4Rows : List RowObj :=
  [[("Q", "yes")], [("Q", "yes")], [("Q", "yes")], [("Q", "yes")], [("Q", "yes")],
   [("Q", "yes")], [("Q", "yes")], [("Q", "blah")], [("Q", "blah")], [("Q", "blah")]]

/-- C4 witness: at exactly 7 of 10 the group is classified as an issue. -/
theorem c4_issue_threshold_witness : "Q" ∈ issueColumnsOf c4Rows ["Q"] := by
  rw [(c4_issue_threshold c4Rows ["Q"] "Q" (by decide)).2.2]
  have hc : countsFor c4Rows "Q" = (10, 7) := by decide
  rw [hc]
  norm_num

theorem lookupRows_pushWardRow : ∀ (gs : List (String × List RowObj)) (k : String)
    (r : RowObj) (q : String),
    lookupRows (pushWardRow gs k r) q =
      if q = k then lookupRows gs k ++ [r] else lookupRows gs q := by
  intro gs
  induction gs with
  | nil =>
      intro k r q
      by_cases h : q = k
      · subst h; simp [pushWardRow, lookupRows, List.find?]
      · simp [pushWardRow, lookupRows, List.find?, h, Ne.symm h]
  | cons p rest ih =>
      intro k r q
      obtain ⟨k', rs⟩ := p
      by_cases hk : k' = k
      · subst hk
        by_cases hq : q = k'
        · subst hq
          simp [pushWardRow, lookupRows, List.find?]
        · simp [pushWardRow, lookupRows, List.find?, hq, Ne.symm hq]
      · rw [show pushWardRow ((k', rs) :: rest) k r = (k', rs) :: pushWardRow rest k r from by
          simp [pushWardRow, hk]]
        by_cases hq : q = k'
        · subst hq
          have hqk : ¬q = k := hk
          rw [if_neg hqk]
          simp [lookupRows, List.find?]
        · have hhead : ∀ gs2 : List (String × List RowObj),
              lookupRows ((k', rs) :: gs2) q = lookupRows gs2 q := by
            intro gs2
            simp [lookupRows, List.find?, hq, Ne.symm hq]
          by_cases hqk : q = k
          · subst hqk
            rw [if_pos rfl, hhead (pushWardRow rest q r), ih q r q, if_pos rfl, hhead rest]
          · rw [if_neg hqk, hhead (pushWardRow rest k r), ih k r q, if_neg hqk, hhead rest]

theorem buildWardGroups_aux : ∀ (rows : List RowObj)
    (acc : List (String × List RowObj) × List RowObj),
    ((rows.foldl stepWM acc).2 =
      acc.2 ++ rows.filter (fun r => hasMayor (getField r "__Ward"))) ∧
    (∀ k : String, k ≠ "" →
      lookupRows (rows.foldl stepWM acc).1 k =
        lookupRows acc.1 k ++ rows.filter (fun r =>
          !hasMayor (getField r "__Ward") && wardKeyJS (getField r "__Ward") = k)) ∧
    lookupRows (rows.foldl stepWM acc).1 "" = lookupRows acc.1 "" := by
  intro rows
  induction rows with
  | nil => intro acc; simp
  | cons r rest ih =>
      intro acc
      rw [List.foldl_cons]
      by_cases hm : hasMayor (getField r "__Ward")
      · have hs : stepWM acc r = (acc.1, acc.2 ++ [r]) := by simp [stepWM, hm]
        rw [hs]
        refine ⟨?_, ?_, ?_⟩
        · rw [(ih _).1]
          simp [List.filter_cons, hm]
        · intro k hk
          rw [(ih _).2.1 k hk]
          simp [List.filter_cons, hm]
        · exact (ih _).2.2
      · by_cases hz : wardKeyJS (getField r "__Ward") = ""
        · have hs : stepWM acc r = acc := by simp [stepWM, hm, hz]
          rw [hs]
          refine ⟨?_, ?_, ?_⟩
          · rw [(ih _).1]
            simp [List.filter_cons, hm]
          · intro k hk
            rw [(ih _).2.1 k hk]
            have hpred : (!hasMayor (getField r "__Ward") &&
                wardKeyJS (getField r "__Ward") = k) = false := by
              simp [hm, hz]
              intro h
              exact hk h.symm
            simp [List.filter_cons, hpred]
          · exact (ih _).2.2
        · have hs : stepWM acc r =
              (pushWardRow acc.1 (wardKeyJS (getField r "__Ward")) r, acc.2) := by
            simp [stepWM, hm, hz]
          rw [hs]
          refine ⟨?_, ?_, ?_⟩
          · rw [(ih _).1]
            simp [List.filter_cons, hm]
          · intro k hk
            rw [(ih _).2.1 k hk, lookupRows_pushWardRow]
            by_cases hkk : k = wardKeyJS (getField r "__Ward")
            · rw [if_pos hkk, ← hkk]
              have hpred : (!hasMayor (getField r "__Ward") &&
                  wardKeyJS (getField r "__Ward") = k) = true := by
                simp [hm, hkk.symm]
              simp [List.filter_cons, hpred, List.append_assoc]
            · rw [if_neg hkk]
              have hpred : (!hasMayor (getField r "__Ward") &&
                  wardKeyJS (getField r "__Ward") = k) = false := by
                simp [hm]
                intro h
                exact absurd h.symm hkk
              simp [List.filter_cons, hpred]
          · rw [(ih _).2.2, lookupRows_pushWardRow]
            rw [if_neg (fun h => hz h.symm)]

/-- C6: a normalized row whose ward label matches `/mayor/i` goes to the
mayoral list and to no ward list; any other row goes to the list keyed by
its first digit run re-parsed and re-stringified (`"Ward 07"` gives key
`"7"`); a row with no digit run and no mayor match goes nowhere (the key
`""` owns no list). -/
theorem c6_ward_mayor_aggregation (rows : List RowObj) (k : String) (hk : k ≠ "") :
    mayorAllOf rows = rows.filter (fun r => hasMayor (getField r "__Ward")) ∧
    wardListAt rows k = rows.filter (fun r =>
      !hasMayor (getField r "__Ward") && wardKeyJS (getField r "__Ward") = k) ∧
    wardListAt rows "" = [] ∧
    wardKeyJS "Ward 07" = "7" ∧ wardKeyJS "no digits here" = "" := by
  have h := buildWardGroups_aux rows ([], [])
  refine ⟨?_, ?_, ?_, by decide, by decide⟩
  · unfold mayorAllOf buildWardGroups
    rw [h.1]
    rfl
  · unfold wardListAt buildWardGroups
    rw [h.2.1 k hk]
    rfl
  · unfold wardListAt buildWardGroups
    rw [h.2.2]
    rfl

/-- C6 witness: a two-row instance with a mayoral row and a ward-07 row. -/
theorem c6_ward_mayor_aggregation_witness :
    mayorAllOf [[("__Ward", "Mayor")], [("__Ward", "Ward 07")]] = [[("__Ward", "Mayor")]] ∧
    wardListAt [[("__Ward", "Mayor")], [("__Ward", "Ward 07")]] "7" = [[("__Ward", "Ward 07")]] ∧
    wardListAt [[("__Ward", "Mayor")], [("__Ward", "Ward 07")]] "" = [] := by
  have h := c6_ward_mayor_aggregation [[("__Ward", "Mayor")], [("__Ward", "Ward 07")]] "7"
    (by decide)
  exact ⟨h.1.trans (by decide), h.2.1.trans (by decide), h.2.2.1⟩

theorem getField_setField : ∀ (r : RowObj) (k v q : String),
    getField (setField r k v) q = if q = k then v else getField r q := by
  intro r
  induction r with
  | nil =>
      intro k v q
      by_cases h : q = k
      · subst h; simp [setField, getField, List.find?]
      · simp [setField, getField, List.find?, h, Ne.symm h]
  | cons p rest ih =>
      intro k v q
      obtain ⟨k', v'⟩ := p
      by_cases hk : k' = k
      · subst hk
        by_cases hq : q = k'
        · subst hq; simp [setField, getField, List.find?]
        · simp [setField, getField, List.find?, hq, Ne.symm hq]
      · rw [show setField ((k', v') :: rest) k v = (k', v') :: setField rest k v from by
          simp [setField, hk]]
        by_cases hq : q = k'
        · subst hq
          simp [getField, List.find?, if_neg hk]
        · have hhead : ∀ r2 : RowObj, getField ((k', v') :: r2) q = getField r2 q := by
            intro r2
            simp [getField, List.find?, hq, Ne.symm hq]
          rw [hhead, hhead, ih k v q]

theorem dropWhile_dropWhile (p : Char → Bool) : ∀ l : List Char,
    (l.dropWhile p).dropWhile p = l.dropWhile p := by
  intro l
  induction l with
  | nil => rfl
  | cons x xs ih =>
      by_cases h : p x
      · simp [List.dropWhile_cons, h, ih]
      · simp [List.dropWhile_cons, h]

theorem dropWhile_head_false (p : Char → Bool) : ∀ (l : List Char) (c : Char) (t : List Char),
    l.dropWhile p = c :: t → p c = false := by
  intro l
  induction l with
  | nil => intro c t h; simp [List.dropWhile] at h
  | cons x xs ih =>
      intro c t h
      by_cases hx : p x
      · rw [List.dropWhile_cons, if_pos hx] at h
        exact ih c t h
      · rw [List.dropWhile_cons, if_neg hx] at h
        cases h
        simpa using hx

theorem dropWhile_append_eq (p : Char → Bool) : ∀ l : List Char,
    ∃ w, l = w ++ l.dropWhile p := by
  intro l
  induction l with
  | nil => exact ⟨[], rfl⟩
  | cons x xs ih =>
      by_cases hx : p x
      · obtain ⟨w, hw⟩ := ih
        exact ⟨x :: w, by simp [List.dropWhile_cons, hx, ← hw]⟩
      · exact ⟨[], by simp [List.dropWhile_cons, hx]⟩

theorem trimList_idem : ∀ l : List Char, trimList (trimList l) = trimList l := by
  intro l
  unfold trimList
  set A := l.dropWhile isWsJS with hA
  set u := A.reverse.dropWhile isWsJS with hu
  have hself : u.reverse.dropWhile isWsJS = u.reverse := by
    cases hur : u.reverse with
    | nil => rfl
    | cons c t =>
        obtain ⟨w, hw⟩ := dropWhile_append_eq isWsJS A.reverse
        have hw' : A.reverse = w ++ u := by rw [hu]; exact hw
        have hAeq : A = u.reverse ++ w.reverse := by
          calc A = A.reverse.reverse := by rw [List.reverse_reverse]
          _ = (w ++ u).reverse := by rw [hw']
          _ = u.reverse ++ w.reverse := by rw [List.reverse_append]
        have hc : isWsJS c = false := by
          apply dropWhile_head_false isWsJS l c (t ++ w.reverse)
          calc l.dropWhile isWsJS = A := by rw [hA]
          _ = u.reverse ++ w.reverse := hAeq
          _ = (c :: t) ++ w.reverse := by rw [hur]
          _ = c :: (t ++ w.reverse) := by simp
        rw [List.dropWhile_cons, if_neg (by simp [hc])]
  rw [hself, List.reverse_reverse, hu, dropWhile_dropWhile isWsJS A.reverse]

theorem jsTrim_idem (s : String) : jsTrim (jsTrim s) = jsTrim s := by
  unfold jsTrim
  rw [show (String.mk (trimList s.toList)).toList = trimList s.toList from rfl,
    trimList_idem]

theorem pushGroup_keys : ∀ (gs : List (String × List Nat)) (k : String) (i : Nat),
    (pushGroup gs k i).map Prod.fst =
      if k ∈ gs.map Prod.fst then gs.map Prod.fst else gs.map Prod.fst ++ [k] := by
  intro gs
  induction gs with
  | nil => intro k i; simp [pushGroup]
  | cons p rest ih =>
      intro k i
      obtain ⟨k', idxs⟩ := p
      by_cases hk : k' = k
      · subst hk
        simp [pushGroup]
      · rw [show pushGroup ((k', idxs) :: rest) k i = (k', idxs) :: pushGroup rest k i from by
          simp [pushGroup, hk]]
        by_cases hmem : k ∈ rest.map Prod.fst
        · simp [ih, hmem, Ne.symm hk, hk]
        · simp [ih, hmem, Ne.symm hk, hk]

theorem pushGroup_keys_nodup {gs : List (String × List Nat)} {k : String} {i : Nat}
    (h : (gs.map Prod.fst).Nodup) : ((pushGroup gs k i).map Prod.fst).Nodup := by
  rw [pushGroup_keys]
  by_cases hmem : k ∈ gs.map Prod.fst
  · simpa [hmem] using h
  · simp [hmem, List.nodup_append, h]

theorem pushGroup_keys_trimmed {gs : List (String × List Nat)} {k : String} {i : Nat}
    (h : ∀ q ∈ gs.map Prod.fst, jsTrim q = q) (hk : jsTrim k = k) :
    ∀ q ∈ (pushGroup gs k i).map Prod.fst, jsTrim q = q := by
  intro q hq
  rw [pushGroup_keys] at hq
  by_cases hmem : k ∈ gs.map Prod.fst
  · rw [if_pos hmem] at hq
    exact h q hq
  · rw [if_neg hmem, List.mem_append] at hq
    rcases hq with hq | hq
    · exact h q hq
    · simp at hq
      subst hq
      exact hk

theorem buildGroups_keys_invariant (slice : Option (Nat × Nat)) :
    ∀ (l : List (Nat × String)) (gs : List (String × List Nat)),
      (gs.map Prod.fst).Nodup → (∀ q ∈ gs.map Prod.fst, jsTrim q = q) →
      ((l.foldl (groupStep slice) gs).map Prod.fst).Nodup ∧
        (∀ q ∈ (l.foldl (groupStep slice) gs).map Prod.fst, jsTrim q = q) := by
  intro l
  induction l with
  | nil => intro gs h1 h2; exact ⟨h1, h2⟩
  | cons p rest ih =>
      intro gs h1 h2
      rw [List.foldl_cons]
      unfold groupStep
      split
      · exact ih gs h1 h2
      · exact ih _ (pushGroup_keys_nodup h1)
          (pushGroup_keys_trimmed h2 (jsTrim_idem p.2))

theorem groupsOf_keys_nodup (data : List (List (Option String))) :
    ((groupsOf data).map Prod.fst).Nodup :=
  (buildGroups_keys_invariant (wardSliceMain (hdr0Of data)) _ [] (by simp) (by simp)).1

theorem groupsOf_keys_trimmed (data : List (List (Option String))) :
    ∀ q ∈ (groupsOf data).map Prod.fst, jsTrim q = q :=
  (buildGroups_keys_invariant (wardSliceMain (hdr0Of data)) _ [] (by simp) (by simp)).2

theorem getField_groupFold (choices : Bool) (header1 : List String)
    (arr : List (Option String)) (g : String) :
    ∀ (gs : List (String × List Nat)) (obj : RowObj),
      (∀ p ∈ gs, p.1 ≠ g ∧ "__COMMENT::" ++ p.1 ≠ g) →
      getField (gs.foldl (groupFoldStep choices header1 arr) obj) g = getField obj g := by
  intro gs
  induction gs with
  | nil => intro obj _; rfl
  | cons p rest ih =>
      intro obj hp
      rw [List.foldl_cons]
      have hstep : getField (groupFoldStep choices header1 arr obj p) g = getField obj g := by
        unfold groupFoldStep applyGroupChoices
        obtain ⟨hne, hcm⟩ := hp p (by simp)
        split
        · rw [getField_setField, if_neg (fun h => hcm h.symm),
            getField_setField, if_neg (fun h => hne h.symm)]
        · rw [getField_setField, if_neg (fun h => hne h.symm)]
      rw [ih _ (fun q hq => hp q (by simp [hq])), hstep]

theorem getField_groupFold_mem (header1 : List String) (arr : List (Option String))
    (g : String) (idxs : List Nat) :
    ∀ (gs : List (String × List Nat)) (obj : RowObj),
      ((gs.map Prod.fst).Nodup) →
      (∀ p ∈ gs, "__COMMENT::" ++ p.1 ≠ g) →
      (g, idxs) ∈ gs →
      getField (gs.foldl (groupFoldStep true header1 arr) obj) g =
        resolveAnswer (buildBucket header1 idxs) arr := by
  intro gs
  induction gs with
  | nil => intro obj _ _ hmem; simp at hmem
  | cons p rest ih =>
      intro obj hnd hcm hmem
      rw [List.foldl_cons]
      rcases List.mem_cons.mp hmem with heq | hmem'
      · subst heq
        have hcmg : "__COMMENT::" ++ g ≠ g := by
          simpa using hcm (g, idxs) (by simp)
        have hgnotin : g ∉ rest.map Prod.fst :=
          (List.nodup_cons.mp (by simpa using hnd)).1
        have hrest : ∀ q ∈ rest, q.1 ≠ g ∧ "__COMMENT::" ++ q.1 ≠ g := by
          intro q hq
          refine ⟨fun h => hgnotin (List.mem_map.mpr ⟨q, hq, h⟩), hcm q (by simp [hq])⟩
        rw [getField_groupFold true header1 arr g rest _ hrest]
        rw [show groupFoldStep true header1 arr obj (g, idxs) =
          applyGroupChoices header1 arr obj g idxs from by simp [groupFoldStep]]
        unfold applyGroupChoices
        rw [getField_setField, if_neg (fun h => hcmg h.symm), getField_setField, if_pos rfl]
      · have hgk : p.1 ≠ g := by
          intro h
          have hgmem : g ∈ rest.map Prod.fst := List.mem_map.mpr ⟨(g, idxs), hmem', rfl⟩
          rw [List.map_cons, h] at hnd
          exact (List.nodup_cons.mp hnd).1 hgmem
        exact ih _ ((List.nodup_cons.mp (by simpa using hnd)).2)
          (fun q hq => hcm q (by simp [hq])) hmem'

theorem resolveAnswer_mem (b : Bucket) (arr : List (Option String)) :
    resolveAnswer b arr ∈ (["Yes", "No", "Undecided", ""] : List String) := by
  unfold resolveAnswer
  simp only [scanLabels]
  split_ifs <;> simp [capFirst]

theorem getField_setWardField (choices : Bool) (header0 header1 : List String)
    (slice : Option (Nat × Nat)) (arr : List (Option String)) (obj : RowObj)
    (g : String) (hg : g ≠ "__Ward") :
    getField (setWardField choices header0 header1 slice arr obj) g = getField obj g := by
  unfold setWardField
  rcases slice with _ | ⟨s, e⟩
  · rfl
  · rw [getField_setField, if_neg hg]

theorem getField_setNameFields (fIdx lIdx nmc : Int) (arr : List (Option String))
    (obj : RowObj) (g : String) (h1 : g ≠ "__FirstName") (h2 : g ≠ "__LastName")
    (h3 : g ≠ "__NameMixed") :
    getField (setNameFields fIdx lIdx nmc arr obj) g = getField obj g := by
  unfold setNameFields
  by_cases hf : 0 ≤ fIdx <;> by_cases hl : 0 ≤ lIdx <;> by_cases hn : 0 ≤ nmc <;>
    simp [hf, hl, hn, getField_setField, h1, h2, h3]

theorem getField_buildRowObj_group (header0 header1 : List String)
    (groups : List (String × List Nat)) (slice : Option (Nat × Nat))
    (fIdx lIdx nmc : Int) (arr : List (Option String)) (g : String) (idxs : List Nat)
    (hnd : (groups.map Prod.fst).Nodup)
    (hmem : (g, idxs) ∈ groups)
    (hcm : ∀ p ∈ groups, "__COMMENT::" ++ p.1 ≠ g)
    (hw : g ≠ "__Ward") (hf : g ≠ "__FirstName") (hl : g ≠ "__LastName")
    (hn : g ≠ "__NameMixed") :
    getField (buildRowObj true header0 header1 groups slice fIdx lIdx nmc arr) g =
      resolveAnswer (buildBucket header1 idxs) arr := by
  unfold buildRowObj
  rw [getField_setNameFields fIdx lIdx nmc arr _ g hf hl hn,
    getField_setWardField true header0 header1 slice arr _ g hw,
    getField_groupFold_mem header1 arr g idxs groups [] hnd hcm hmem]

theorem mem_rowsOf_aux (data : List (List (Option String))) :
    ∀ (l : List (List (Option String))) (acc : List RowObj) (row : RowObj),
      (row ∈ l.foldl (rowStep data) acc ↔
        row ∈ acc ∨ ∃ arr ∈ l, admitRow (rowFor data arr) = true ∧ row = rowFor data arr) := by
  intro l
  induction l with
  | nil => intro acc row; simp
  | cons arr rest ih =>
      intro acc row
      rw [List.foldl_cons]
      by_cases ha : admitRow (rowFor data arr) = true
      · have hs : rowStep data acc arr = acc ++ [rowFor data arr] := by
          simp [rowStep, ha]
        rw [hs, ih (acc ++ [rowFor data arr]) row]
        constructor
        · rintro (hmem | ⟨a, hal, haa, heq⟩)
          · rw [List.mem_append] at hmem
            rcases hmem with h | h
            · exact Or.inl h
            · simp at h
              exact Or.inr ⟨arr, by simp, ha, h⟩
          · exact Or.inr ⟨a, by simp [hal], haa, heq⟩
        · rintro (hmem | ⟨a, hal, haa, heq⟩)
          · exact Or.inl (by simp [hmem])
          · rcases List.mem_cons.mp hal with rfl | hal'
            · exact Or.inl (by simp [heq])
            · exact Or.inr ⟨a, hal', haa, heq⟩
      · have hs : rowStep data acc arr = acc := by
          simp [rowStep, ha]
        rw [hs, ih acc row]
        constructor
        · rintro (hmem | ⟨a, hal, haa, heq⟩)
          · exact Or.inl hmem
          · exact Or.inr ⟨a, by simp [hal], haa, heq⟩
        · rintro (hmem | ⟨a, hal, haa, heq⟩)
          · exact Or.inl hmem
          · rcases List.mem_cons.mp hal with rfl | hal'
            · exact absurd haa ha
            · exact Or.inr ⟨a, hal', haa, heq⟩

theorem mem_rowsOf (data : List (List (Option String))) (row : RowObj) :
    row ∈ rowsOf data ↔
      ∃ arr ∈ data.drop (dataStartOf data),
        admitRow (rowFor data arr) = true ∧ row = rowFor data arr := by
  unfold rowsOf
  rw [mem_rowsOf_aux data _ [] row]
  simp

/-- The field names the row builder may overwrite after the per-group loop:
the synthetic reserved fields and every group's comment key. -/
def reservedKeysOf (data : List (List (Option String))) : List String :=
  ["__Ward", "__FirstName", "__LastName", "__NameMixed"] ++
    (groupsOf data).map (fun p => "__COMMENT::" ++ p.1)

theorem choiceMode_field_mem (data : List (List (Option String)))
    (hch : header1IsChoices (hdr1Of data) = true) (g : String) (idxs : List Nat)
    (hmem : (g, idxs) ∈ groupsOf data) (hres : g ∉ reservedKeysOf data) :
    ∀ row ∈ rowsOf data, getField row g ∈ (["Yes", "No", "Undecided", ""] : List String) := by
  intro row hrow
  rw [mem_rowsOf] at hrow
  obtain ⟨arr, _, _, rfl⟩ := hrow
  unfold rowFor
  rw [hch]
  unfold reservedKeysOf at hres
  simp only [List.mem_append, List.mem_cons, List.mem_map, not_or] at hres
  obtain ⟨hres1, hres2⟩ := hres
  rw [getField_buildRowObj_group (hdr0Of data) (hdr1Of data) (groupsOf data)
    (wardSliceMain (hdr0Of data)) (firstIdxI (hdr1Of data)) (lastIdxI (hdr1Of data))
    (nameMixedColI (hdr0Of data)) arr g idxs (groupsOf_keys_nodup data) hmem
    (fun p hp h => hres2 ⟨p, hp, h⟩)
    (by tauto) (by tauto) (by tauto) (by tauto)]
  exact resolveAnswer_mem _ arr

theorem cleanSurvey_some (data : List (List (Option String))) (hlen : 2 ≤ data.length) :
    cleanSurvey (some data) =
      { rows := rowsOf data
        issueColumns := issueColumnsOf (rowsOf data) (colsOf data)
        wardColumn := wardColumnOf (wardSliceMain (hdr0Of data)) (colsOf data)
        cols := colsOf data
        commentForIssue :=
          if header1IsChoices (hdr1Of data) then
            (groupsOf data).map (fun p => (p.1, "__COMMENT::" ++ p.1))
          else []
        firstIdx := firstIdxI (hdr1Of data)
        lastIdx := lastIdxI (hdr1Of data)
        nameMixedCol := nameMixedColI (hdr0Of data) } := by
  simp only [cleanSurvey]
  rw [if_neg (Nat.not_lt.mpr hlen)]

/-- A grid whose second row is not a choice row, so it is treated as the
first data row and its free-text cell becomes a group value. -/
def c7Grid : List (List (Option String)) := [[some "Q"], [some "maybe"]]

/-- C7 counterexample: when the second header row is not classified as a
choice row, a group key can map to the raw first non-empty cell — here the
retained row maps `"Q"` to `"maybe"`, which is not one of
`"Yes"`, `"No"`, `"Undecided"`, `""`. -/
theorem c7_counterexample :
    header1IsChoices (hdr1Of c7Grid) = false ∧
    (cleanSurvey (some c7Grid)).cols = ["Q"] ∧
    (cleanSurvey (some c7Grid)).rows.map (fun r => getField r "Q") = ["maybe"] ∧
    "maybe" ∉ (["Yes", "No", "Undecided", ""] : List String) :=
  ⟨by decide, by decide, by decide, by decide⟩

/-- C7 (amended): when the second header row IS classified as a choice row,
every retained normalized row maps each question-group key — provided it
collides with no reserved synthetic field (`__Ward`, `__FirstName`,
`__LastName`, `__NameMixed`, or any `__COMMENT::<group>` key) — to one of
`"Yes"`, `"No"`, `"Undecided"`, `""`; in non-choices mode the value is the
raw first non-empty cell and can be any string. -/
theorem c7_answer_range (data : List (List (Option String)))
    (hlen : 2 ≤ data.length) (hch : header1IsChoices (hdr1Of data) = true)
    (g : String) (idxs : List Nat) (hmem : (g, idxs) ∈ groupsOf data)
    (hres : g ∉ reservedKeysOf data) :
    ∀ row ∈ (cleanSurvey (some data)).rows,
      getField row g ∈ (["Yes", "No", "Undecided", ""] : List String) := by
  rw [cleanSurvey_some data hlen]
  exact choiceMode_field_mem data hch g idxs hmem hres

/-- A minimal choices-mode grid with one yes-answered question. -/
def c7wGrid : List (List (Option String)) := [[some "Q"], [some "Yes"], [some "y"]]

/-- C7 witness: on the concrete choices-mode grid the single retained row
maps `"Q"` to a value in the allowed set. -/
theorem c7_answer_range_witness :
    getField [("Q", "Yes"), ("__COMMENT::Q", "")] "Q" ∈
      (["Yes", "No", "Undecided", ""] : List String) :=
  c7_answer_range c7wGrid (by decide) (by decide) "Q" [0] (by decide) (by decide)
    [("Q", "Yes"), ("__COMMENT::Q", "")] (by decide)

/-- A choices-mode grid in which a question column is headed by the
reserved name `__Ward`, so the ward write overwrites its resolved answer. -/
def c10Grid : List (List (Option String)) :=
  [[some "I'm a candidate for:", some "Unnamed: 1",
      some "Candidate Name and Email Address", some "__Ward", some "Q"],
   [none, some "Ward 7", none, some "Yes", some "Yes"],
   [none, some "X", none, some "Yes", some "Yes"]]

/-- C10 counterexample: in choices mode the group keyed `__Ward` has the
non-empty resolved answer `"Yes"` (and the retained row holds the non-empty
value `"Ward 7"` at that key), yet `__Ward` is not in `issueColumns`,
because the ward write overwrites the resolved answer with a non-ynu value
before the issue classifier counts it. -/
theorem c10_counterexample :
    header1IsChoices (hdr1Of c10Grid) = true ∧
    ("__Ward", [3]) ∈ groupsOf c10Grid ∧
    (cleanSurvey (some c10Grid)).rows.map (fun r => getField r "__Ward") = ["Ward 7"] ∧
    resolveAnswer (buildBucket (hdr1Of c10Grid) [3])
      [none, some "X", none, some "Yes", some "Yes"] = "Yes" ∧
    "__Ward" ∉ (cleanSurvey (some c10Grid)).issueColumns :=
  ⟨by decide, by decide, by decide, by decide, by decide⟩

/-- C10 (amended): in choices mode, a question-group key that collides with
no reserved synthetic field is in `issueColumns` iff at least one retained
normalized row has a non-empty value for that key: every such value is
`"Yes"`, `"No"`, `"Undecided"` or `""`, so the yes/no/undecided fraction is
1 whenever `nonEmpty > 0` and the 0.7 threshold never excludes the group. -/
theorem c10_choices_issue_iff (data : List (List (Option String)))
    (hlen : 2 ≤ data.length) (hch : header1IsChoices (hdr1Of data) = true)
    (g : String) (idxs : List Nat) (hmem : (g, idxs) ∈ groupsOf data)
    (hres : g ∉ reservedKeysOf data) :
    (g ∈ (cleanSurvey (some data)).issueColumns ↔
      ∃ row ∈ (cleanSurvey (some data)).rows, getField row g ≠ "") := by
  rw [cleanSurvey_some data hlen]
  show g ∈ issueColumnsOf (rowsOf data) (colsOf data) ↔
    ∃ row ∈ rowsOf data, getField row g ≠ ""
  have hvals := choiceMode_field_mem data hch g idxs hmem hres
  have hval : ∀ row ∈ rowsOf data, jsTrim (getField row g) = getField row g ∧
      (getField row g ≠ "" → lcStr (jsTrim (getField row g)) ∈ ynuVals) := by
    intro row hrow
    have h4 : getField row g = "Yes" ∨ getField row g = "No" ∨
        getField row g = "Undecided" ∨ getField row g = "" := by
      simpa using hvals row hrow
    rcases h4 with h | h | h | h
    · rw [h]; exact ⟨by decide, fun _ => by decide⟩
    · rw [h]; exact ⟨by decide, fun _ => by decide⟩
    · rw [h]; exact ⟨by decide, fun _ => by decide⟩
    · rw [h]; exact ⟨by decide, fun hne => absurd rfl hne⟩
  have hcols : g ∈ colsOf data := by
    unfold colsOf
    exact List.mem_map.mpr ⟨(g, idxs), hmem,
      groupsOf_keys_trimmed data g (List.mem_map.mpr ⟨(g, idxs), hmem, rfl⟩)⟩
  have hcount := countsFor_eq_filter (rowsOf data) g
  have hfeq : (rowsOf data).filter (fun r => jsTrim (getField r g) ≠ "") =
      (rowsOf data).filter (fun r => jsTrim (getField r g) ≠ "" ∧
        lcStr (jsTrim (getField r g)) ∈ ynuVals) := by
    apply (List.filter_congr ?_).symm
    intro r hr
    by_cases hz : getField r g = ""
    · simp [hz, (hval r hr).1]
      exact fun h => absurd (by decide : jsTrim "" = "") h
    · have h2 := (hval r hr).2 hz
      rw [(hval r hr).1] at h2
      simp [(hval r hr).1, hz, h2]
  have hlen12 : ((rowsOf data).filter (fun r => jsTrim (getField r g) ≠ "")).length =
      ((rowsOf data).filter (fun r => jsTrim (getField r g) ≠ "" ∧
        lcStr (jsTrim (getField r g)) ∈ ynuVals)).length := congrArg List.length hfeq
  unfold issueColumnsOf
  rw [mem_issueColumnsOf_aux (rowsOf data) (colsOf data) [] g]
  simp only [List.not_mem_nil, false_or]
  constructor
  · rintro ⟨_, h1, _⟩
    rw [hcount] at h1
    obtain ⟨row, hrowf⟩ := List.exists_mem_of_length_pos h1
    have hrf := List.mem_filter.mp hrowf
    refine ⟨row, hrf.1, fun hz => ?_⟩
    have hpred := hrf.2
    rw [hz] at hpred
    exact absurd (by decide : jsTrim "" = "") (by simpa using hpred)
  · rintro ⟨row, hrow, hne⟩
    refine ⟨hcols, ?_, ?_⟩
    · rw [hcount]
      show 0 < ((rowsOf data).filter (fun r => jsTrim (getField r g) ≠ "")).length
      exact List.length_pos_of_mem (List.mem_filter.mpr ⟨hrow, by
        simp [(hval row hrow).1, hne]⟩)
    · rw [hcount]
      show 7 * ((rowsOf data).filter (fun r => jsTrim (getField r g) ≠ "")).length ≤
        10 * ((rowsOf data).filter (fun r => jsTrim (getField r g) ≠ "" ∧
          lcStr (jsTrim (getField r g)) ∈ ynuVals)).length
      omega

/-- A minimal choices-mode grid with one yes-answered question, used to
witness the amended issue-column equivalence. -/
def c10wGrid : List (List (Option String)) := [[some "Q"], [some "Yes"], [some "y"]]

/-- C10 witness: on the concrete grid the group `"Q"` has a row with a
non-empty value, hence is an issue column. -/
theorem c10_choices_issue_iff_witness : "Q" ∈ (cleanSurvey (some c10wGrid)).issueColumns := by
  rw [c10_choices_issue_iff c10wGrid (by decide) (by decide) "Q" [0] (by decide) (by decide)]
  exact ⟨[("Q", "Yes"), ("__COMMENT::Q", "")], by decide, by decide⟩

end VoterGuide
